import Mathlib

set_option maxHeartbeats 1000000

/-!
Shallow embedding of the geometric segmentation evaluation core of
`eval_geom.py`: the margin vector calculator (`compute_ref_margin_vect`,
`compute_test_margin_vect`), the link classifier (`compute_link_mat`) and
the seven metric counters (`find_total_correct_segmentation`,
`find_total_over_segmentation`, `find_total_under_segmentation`,
`find_num_over_segmentation_components`,
`find_num_under_segmentation_components`, `find_num_missed_components`,
`find_num_false_alarm_components`), aggregated as in `main`.

Real-valued quantities (intersection areas, margins, thresholds) are
modelled as rationals, so every comparison is exact and decidable; numpy
2-D arrays are modelled as a dimensions-plus-entry-function structure, with
rows indexing reference elements and columns indexing test elements, as the
source comments state.
-/

/-- A polygonal shape, abstracted to the single capability the matching
core uses: its area (`shape.area()` in the source). -/
structure Shape where
  area : ℚ
deriving Inhabited

/-- An annotated region: a shape together with a category label (only the
shape's area is consumed by the matching core). -/
structure Annot where
  shape : Shape
  type : String
deriving Inhabited

/-- A numpy-style 2-D array of shape `(reflen, testlen)`: rows correspond
to reference elements and columns to test elements. -/
structure Mat (α : Type) where
  reflen : Nat
  testlen : Nat
  entry : Nat → Nat → α

/-- `compute_ref_margin_vect`: for each row `i`, the sum of row `i` of the
weight matrix (`weight_mat[i,:].sum()`). -/
def compute_ref_margin_vect (weight_mat : Mat ℚ) : List ℚ :=
  (List.range weight_mat.reflen).map fun i =>
    ((List.range weight_mat.testlen).map fun j => weight_mat.entry i j).sum

/-- `compute_test_margin_vect`: for each column `j`, the sum of column `j`
of the weight matrix (`weight_mat[:,j].sum()`). -/
def compute_test_margin_vect (weight_mat : Mat ℚ) : List ℚ :=
  (List.range weight_mat.testlen).map fun j =>
    ((List.range weight_mat.reflen).map fun i => weight_mat.entry i j).sum

/-- Module-level constant `thresholdRelative = 0.2`. -/
def thresholdRelative : ℚ := 0.2

/-- Module-level constant `threshold_ref = 0.5`. -/
def threshold_ref : ℚ := 0.5

/-- Module-level constant `threshold_test = 0.5`. -/
def threshold_test : ℚ := 0.5

/-- The loop body of `compute_link_mat` for one cell `(i, j)`:
`significant` stays `false` unless `weight_mat[i,j] > 0`; then the
reference-relative gate is tried first and, only when it fails (`elif`),
the test-relative gate. -/
def compute_link_mat_entry (weight_mat : Mat ℚ)
    (ref_margin_vect test_margin_vect : List ℚ)
    (ref_data_vect test_data_vect : List Annot) (i j : Nat) : Bool :=
  if weight_mat.entry i j > 0 then
    if weight_mat.entry i j / ref_margin_vect.getD i 0 ≥ thresholdRelative then
      decide (weight_mat.entry i j / (ref_data_vect.getD i default).shape.area > threshold_ref)
    else if weight_mat.entry i j / test_margin_vect.getD j 0 ≥ thresholdRelative then
      decide (weight_mat.entry i j / (test_data_vect.getD j default).shape.area > threshold_test)
    else false
  else false

/-- `compute_link_mat`: asserts that the weight matrix's row count matches
the reference margin and data vector lengths, and its column count the test
margin and data vector lengths (a failed assert aborts with a descriptive
message, modelled as `Except.error`); then fills a
`len(ref_data_vect) × len(test_data_vect)` boolean matrix cell by cell. -/
def compute_link_mat (weight_mat : Mat ℚ)
    (ref_margin_vect test_margin_vect : List ℚ)
    (ref_data_vect test_data_vect : List Annot) : Except String (Mat Bool) :=
  if weight_mat.reflen = ref_margin_vect.length ∧
      ref_margin_vect.length = ref_data_vect.length then
    if weight_mat.testlen = test_margin_vect.length ∧
        test_margin_vect.length = test_data_vect.length then
      Except.ok ⟨ref_data_vect.length, test_data_vect.length,
        compute_link_mat_entry weight_mat ref_margin_vect test_margin_vect
          ref_data_vect test_data_vect⟩
    else
      Except.error ("Test vectors have different lenghts: w:" ++
        toString weight_mat.testlen ++ " m:" ++ toString test_margin_vect.length ++
        " d:" ++ toString test_data_vect.length)
  else
    Except.error ("Reference vectors have different lenghts: w:" ++
      toString weight_mat.reflen ++ " m:" ++ toString ref_margin_vect.length ++
      " d:" ++ toString ref_data_vect.length)

/-- `find_total_correct_segmentation`: for each reference row, scan the row
accumulating `row_match_count` and the last seen match index
`row_match_index`; when the row has exactly one match, count the matches of
that column and count the row as correct when the column count is 1. -/
def find_total_correct_segmentation (link_mat : Mat Bool) : Nat :=
  ((List.range link_mat.reflen).map fun i =>
    let scan := (List.range link_mat.testlen).foldl
      (fun acc j => if link_mat.entry i j then (acc.1 + 1, j) else acc)
      ((0 : Nat), (0 : Nat))
    if scan.1 = 1 then
      if ((List.range link_mat.reflen).countP fun ii => link_mat.entry ii scan.2) = 1
      then 1 else 0
    else 0).sum

/-- `find_total_over_segmentation`: accumulate, over rows whose match count
`match_flag` exceeds 1, the pair (`number_refc_at_least_one_edge`,
`number_significant_refc`), and return their difference. -/
def find_total_over_segmentation (link_mat : Mat Bool) : Nat :=
  let acc := (List.range link_mat.reflen).foldl
    (fun acc i =>
      let match_flag := (List.range link_mat.testlen).countP fun j => link_mat.entry i j
      if match_flag > 1 then (acc.1 + match_flag, acc.2 + 1) else acc)
    ((0 : Nat), (0 : Nat))
  acc.1 - acc.2

/-- `find_total_under_segmentation`: the column-wise symmetric of
`find_total_over_segmentation`. -/
def find_total_under_segmentation (link_mat : Mat Bool) : Nat :=
  let acc := (List.range link_mat.testlen).foldl
    (fun acc j =>
      let match_flag := (List.range link_mat.reflen).countP fun i => link_mat.entry i j
      if match_flag > 1 then (acc.1 + match_flag, acc.2 + 1) else acc)
    ((0 : Nat), (0 : Nat))
  acc.1 - acc.2

/-- `find_num_over_segmentation_components`: the number of reference rows
whose match count exceeds 1. -/
def find_num_over_segmentation_components (link_mat : Mat Bool) : Nat :=
  (List.range link_mat.reflen).countP fun i =>
    decide (((List.range link_mat.testlen).countP fun j => link_mat.entry i j) > 1)

/-- `find_num_under_segmentation_components`: the number of test columns
whose match count exceeds 1. -/
def find_num_under_segmentation_components (link_mat : Mat Bool) : Nat :=
  (List.range link_mat.testlen).countP fun j =>
    decide (((List.range link_mat.reflen).countP fun i => link_mat.entry i j) > 1)

/-- `find_num_missed_components`: the number of reference rows with no
match at all (the source breaks out of the row scan at the first match, so
only the existence of a match is observed). -/
def find_num_missed_components (link_mat : Mat Bool) : Nat :=
  (List.range link_mat.reflen).countP fun i =>
    !((List.range link_mat.testlen).any fun j => link_mat.entry i j)

/-- `find_num_false_alarm_components`: the number of test columns with no
match at all. -/
def find_num_false_alarm_components (link_mat : Mat Bool) : Nat :=
  (List.range link_mat.testlen).countP fun j =>
    !((List.range link_mat.reflen).any fun i => link_mat.entry i j)

/-- The nine-field metrics record produced by `main`. -/
structure MetricsResult where
  Tc : Nat
  To : Nat
  Tu : Nat
  Co : Nat
  Cu : Nat
  Cm : Nat
  Cf : Nat
  Cr : Nat
  Ct : Nat

/-- The metric aggregation performed by `main` on a link matrix:
`Cr, Ct = link_mat.shape`, the seven counters from the `find_*`
functions. -/
def computeMetrics (link_mat : Mat Bool) : MetricsResult :=
  ⟨find_total_correct_segmentation link_mat,
   find_total_over_segmentation link_mat,
   find_total_under_segmentation link_mat,
   find_num_over_segmentation_components link_mat,
   find_num_under_segmentation_components link_mat,
   find_num_missed_components link_mat,
   find_num_false_alarm_components link_mat,
   link_mat.reflen,
   link_mat.testlen⟩

/-- Degree of reference row `i` in a link matrix: its number of linked
columns. -/
def rowDeg (link_mat : Mat Bool) (i : Nat) : Nat :=
  (List.range link_mat.testlen).countP fun j => link_mat.entry i j

/-- Degree of test column `j` in a link matrix: its number of linked
rows. -/
def colDeg (link_mat : Mat Bool) (j : Nat) : Nat :=
  (List.range link_mat.reflen).countP fun i => link_mat.entry i j

/-- Stated from the specification's words for `Tc`: count the reference
rows of degree exactly 1 whose unique linked column also has degree exactly
1 (expressed as: some linked column of the row has degree 1, which under
row degree 1 pins down the unique linked column). -/
def specTc (link_mat : Mat Bool) : Nat :=
  (List.range link_mat.reflen).countP fun i =>
    decide (rowDeg link_mat i = 1) &&
      ((List.range link_mat.testlen).any fun j =>
        link_mat.entry i j && decide (colDeg link_mat j = 1))

/-- Stated from the specification's words for `To`: the sum of
`degree − 1` over the reference rows of degree greater than 1. -/
def specTo (link_mat : Mat Bool) : Nat :=
  ((List.range link_mat.reflen).map fun i =>
    if rowDeg link_mat i > 1 then rowDeg link_mat i - 1 else 0).sum

/-- Stated from the specification's words for `Tu`: the sum of
`degree − 1` over the test columns of degree greater than 1. -/
def specTu (link_mat : Mat Bool) : Nat :=
  ((List.range link_mat.testlen).map fun j =>
    if colDeg link_mat j > 1 then colDeg link_mat j - 1 else 0).sum

/-- Stated from the specification's words for the link rule of one cell
(§4.3): zero weight gives no link; otherwise the reference-relative gate is
tried first and decides via the reference-absolute test, and only when the
reference-relative gate fails is the test-relative gate tried. -/
def spec_link_rule (w refMargin refArea testMargin testArea : ℚ) : Bool :=
  if w = 0 then false
  else if w / refMargin ≥ thresholdRelative then decide (w / refArea > threshold_ref)
  else if w / testMargin ≥ thresholdRelative then decide (w / testArea > threshold_test)
  else false

/-! ### Helper lemmas -/

lemma getD_map_range (f : Nat → ℚ) (n i : Nat) (h : i < n) :
    ((List.range n).map f).getD i 0 = f i := by
  rw [List.getD_eq_getElem?_getD]
  simp [List.getElem?_map, List.getElem?_range, h]

lemma list_sum_map_range_eq_finset_sum (f : Nat → ℚ) (n : Nat) :
    ((List.range n).map f).sum = ∑ j ∈ Finset.range n, f j := by
  induction n with
  | zero => simp
  | succ k ih =>
      rw [List.range_succ, List.map_append, List.sum_append, Finset.sum_range_succ, ih]
      simp

/-! ### Claims C6 to C9 -/

/-- Claim C6: link soundness — whenever the link classifier succeeds and
marks a cell `(i, j)` as linked, the corresponding weight-matrix entry is
strictly positive; a link is never asserted for a zero-overlap pair. -/
theorem claim_C6_link_soundness (weight_mat : Mat ℚ)
    (ref_margin_vect test_margin_vect : List ℚ)
    (ref_data_vect test_data_vect : List Annot) (L : Mat Bool) (i j : Nat)
    (hok : compute_link_mat weight_mat ref_margin_vect test_margin_vect
      ref_data_vect test_data_vect = Except.ok L)
    (hL : L.entry i j = true) : 0 < weight_mat.entry i j := by
  unfold compute_link_mat at hok
  split at hok
  · split at hok
    · cases hok
      have hL' : compute_link_mat_entry weight_mat ref_margin_vect test_margin_vect
          ref_data_vect test_data_vect i j = true := hL
      unfold compute_link_mat_entry at hL'
      split at hL'
      · assumption
      · exact absurd hL' (by simp)
    · cases hok
  · cases hok

theorem claim_C6_witness :
    compute_link_mat ⟨1, 1, fun _ _ => 1⟩ [1] [1] [⟨⟨1⟩, ""⟩] [⟨⟨1⟩, ""⟩] =
      Except.ok ⟨1, 1, compute_link_mat_entry ⟨1, 1, fun _ _ => 1⟩ [1] [1]
        [⟨⟨1⟩, ""⟩] [⟨⟨1⟩, ""⟩]⟩ ∧
    Mat.entry ⟨1, 1, compute_link_mat_entry ⟨1, 1, fun _ _ => 1⟩ [1] [1]
      [⟨⟨1⟩, ""⟩] [⟨⟨1⟩, ""⟩]⟩ 0 0 = true ∧
    0 < Mat.entry (⟨1, 1, fun _ _ => 1⟩ : Mat ℚ) 0 0 := by
  refine ⟨rfl, ?_, ?_⟩
  · show compute_link_mat_entry ⟨1, 1, fun _ _ => 1⟩ [1] [1]
      [⟨⟨1⟩, ""⟩] [⟨⟨1⟩, ""⟩] 0 0 = true
    unfold compute_link_mat_entry
    norm_num [Mat.entry, thresholdRelative, threshold_ref]
  · exact claim_C6_link_soundness ⟨1, 1, fun _ _ => 1⟩ [1] [1] [⟨⟨1⟩, ""⟩] [⟨⟨1⟩, ""⟩]
      ⟨1, 1, compute_link_mat_entry ⟨1, 1, fun _ _ => 1⟩ [1] [1]
        [⟨⟨1⟩, ""⟩] [⟨⟨1⟩, ""⟩]⟩ 0 0 rfl
      (by
        show compute_link_mat_entry ⟨1, 1, fun _ _ => 1⟩ [1] [1]
          [⟨⟨1⟩, ""⟩] [⟨⟨1⟩, ""⟩] 0 0 = true
        unfold compute_link_mat_entry
        norm_num [Mat.entry, thresholdRelative, threshold_ref])

/-- Claim C7: no division by zero is reachable in the link classifier —
for a weight matrix with non-negative entries, whenever `W[i,j] > 0` the
margins used as divisors for the pair `(i, j)` are strictly positive,
because each sums a set of non-negative entries containing `W[i,j]`. -/
theorem claim_C7_margins_positive (weight_mat : Mat ℚ) (i j : Nat)
    (hnn : ∀ i' j', i' < weight_mat.reflen → j' < weight_mat.testlen →
      0 ≤ weight_mat.entry i' j')
    (hi : i < weight_mat.reflen) (hj : j < weight_mat.testlen)
    (hw : 0 < weight_mat.entry i j) :
    0 < (compute_ref_margin_vect weight_mat).getD i 0 ∧
      0 < (compute_test_margin_vect weight_mat).getD j 0 := by
  constructor
  · unfold compute_ref_margin_vect
    rw [getD_map_range _ _ _ hi]
    have hmem : weight_mat.entry i j ∈
        (List.range weight_mat.testlen).map fun j' => weight_mat.entry i j' :=
      List.mem_map.mpr ⟨j, List.mem_range.mpr hj, rfl⟩
    have hle := List.single_le_sum (l := (List.range weight_mat.testlen).map
        fun j' => weight_mat.entry i j')
      (by
        intro x hx
        obtain ⟨j', hj', rfl⟩ := List.mem_map.mp hx
        exact hnn i j' hi (List.mem_range.mp hj'))
      _ hmem
    exact lt_of_lt_of_le hw hle
  · unfold compute_test_margin_vect
    rw [getD_map_range _ _ _ hj]
    have hmem : weight_mat.entry i j ∈
        (List.range weight_mat.reflen).map fun i' => weight_mat.entry i' j :=
      List.mem_map.mpr ⟨i, List.mem_range.mpr hi, rfl⟩
    have hle := List.single_le_sum (l := (List.range weight_mat.reflen).map
        fun i' => weight_mat.entry i' j)
      (by
        intro x hx
        obtain ⟨i', hi', rfl⟩ := List.mem_map.mp hx
        exact hnn i' j (List.mem_range.mp hi') hj)
      _ hmem
    exact lt_of_lt_of_le hw hle

theorem claim_C7_witness :
    (∀ i' j', i' < (1 : Nat) → j' < (1 : Nat) →
      (0 : ℚ) ≤ Mat.entry (⟨1, 1, fun _ _ => 1⟩ : Mat ℚ) i' j') ∧
    (0 : Nat) < 1 ∧
    (0 : ℚ) < Mat.entry (⟨1, 1, fun _ _ => 1⟩ : Mat ℚ) 0 0 ∧
    (0 < (compute_ref_margin_vect ⟨1, 1, fun _ _ => 1⟩).getD 0 0 ∧
      0 < (compute_test_margin_vect ⟨1, 1, fun _ _ => 1⟩).getD 0 0) :=
  ⟨fun _ _ _ _ => by show (0 : ℚ) ≤ 1; norm_num, by decide,
    by show (0 : ℚ) < 1; norm_num,
    claim_C7_margins_positive ⟨1, 1, fun _ _ => 1⟩ 0 0
      (fun _ _ _ _ => by show (0 : ℚ) ≤ 1; norm_num) (by decide) (by decide)
      (by show (0 : ℚ) < 1; norm_num)⟩

/-- Claim C8: margin consistency — the reference margin vector has length
`N` and its `i`-th entry is the sum of row `i` of `W`; the test margin
vector has length `M` and its `j`-th entry is the sum of column `j`; when
`N = 0` or `M = 0` the corresponding vector is empty. -/
theorem claim_C8_margin_consistency (weight_mat : Mat ℚ) :
    (compute_ref_margin_vect weight_mat).length = weight_mat.reflen ∧
    (compute_test_margin_vect weight_mat).length = weight_mat.testlen ∧
    (∀ i, i < weight_mat.reflen →
      (compute_ref_margin_vect weight_mat).getD i 0 =
        ∑ j ∈ Finset.range weight_mat.testlen, weight_mat.entry i j) ∧
    (∀ j, j < weight_mat.testlen →
      (compute_test_margin_vect weight_mat).getD j 0 =
        ∑ i ∈ Finset.range weight_mat.reflen, weight_mat.entry i j) ∧
    (weight_mat.reflen = 0 → compute_ref_margin_vect weight_mat = []) ∧
    (weight_mat.testlen = 0 → compute_test_margin_vect weight_mat = []) := by
  refine ⟨by simp [compute_ref_margin_vect], by simp [compute_test_margin_vect],
    ?_, ?_, ?_, ?_⟩
  · intro i hi
    unfold compute_ref_margin_vect
    rw [getD_map_range _ _ _ hi, list_sum_map_range_eq_finset_sum]
  · intro j hj
    unfold compute_test_margin_vect
    rw [getD_map_range _ _ _ hj, list_sum_map_range_eq_finset_sum]
  · intro h
    simp [compute_ref_margin_vect, h]
  · intro h
    simp [compute_test_margin_vect, h]

theorem claim_C8_witness :
    (0 : Nat) < 1 ∧
    (compute_ref_margin_vect ⟨1, 2, fun _ j => (j : ℚ) + 1⟩).getD 0 0 =
      ∑ j ∈ Finset.range 2, ((j : ℚ) + 1) :=
  ⟨by decide,
    (claim_C8_margin_consistency ⟨1, 2, fun _ j => (j : ℚ) + 1⟩).2.2.1 0 (by decide)⟩

/-- Claim C9: when the weight matrix's row count differs from the length
of the reference margin vector or the reference annotation list, or its
column count differs from the length of the test margin vector or the test
annotation list, the link classifier fails with a descriptive error and
produces no link matrix. -/
theorem claim_C9_length_mismatch_error (weight_mat : Mat ℚ)
    (ref_margin_vect test_margin_vect : List ℚ)
    (ref_data_vect test_data_vect : List Annot)
    (h : weight_mat.reflen ≠ ref_margin_vect.length ∨
         weight_mat.reflen ≠ ref_data_vect.length ∨
         weight_mat.testlen ≠ test_margin_vect.length ∨
         weight_mat.testlen ≠ test_data_vect.length) :
    ∃ msg, compute_link_mat weight_mat ref_margin_vect test_margin_vect
      ref_data_vect test_data_vect = Except.error msg := by
  unfold compute_link_mat
  split
  · split
    · rename_i h1 h2
      exfalso
      obtain ⟨a, b⟩ := h1
      obtain ⟨c, d⟩ := h2
      rcases h with h | h | h | h <;> omega
    · exact ⟨_, rfl⟩
  · exact ⟨_, rfl⟩

theorem claim_C9_witness :
    ((1 : Nat) ≠ List.length ([] : List ℚ) ∨
     (1 : Nat) ≠ List.length ([] : List Annot) ∨
     (1 : Nat) ≠ List.length ([] : List ℚ) ∨
     (1 : Nat) ≠ List.length ([] : List Annot)) ∧
    (∃ msg, compute_link_mat ⟨1, 1, fun _ _ => 1⟩ [] [] [] [] = Except.error msg) :=
  ⟨Or.inl (by decide),
    claim_C9_length_mismatch_error ⟨1, 1, fun _ _ => 1⟩ [] [] [] []
      (Or.inl (by decide))⟩

/-! ### Claim C1 -/

/-- Claim C1: for every pair `(i, j)` with `W[i,j] > 0` the link classifier
decides the cell by the asymmetric short-circuit rule of §4.3 (reference
relative gate first; only when it fails, the test-relative gate), and in
particular a pair whose reference-relative gate passes but whose
reference-absolute test fails is unlinked, regardless of the test-side
conditions. -/
theorem claim_C1_link_rule (weight_mat : Mat ℚ)
    (ref_margin_vect test_margin_vect : List ℚ)
    (ref_data_vect test_data_vect : List Annot) (i j : Nat)
    (h1 : weight_mat.reflen = ref_margin_vect.length)
    (h2 : ref_margin_vect.length = ref_data_vect.length)
    (h3 : weight_mat.testlen = test_margin_vect.length)
    (h4 : test_margin_vect.length = test_data_vect.length)
    (hw : 0 < weight_mat.entry i j) :
    ∃ L, compute_link_mat weight_mat ref_margin_vect test_margin_vect
        ref_data_vect test_data_vect = Except.ok L ∧
      L.entry i j = spec_link_rule (weight_mat.entry i j)
        (ref_margin_vect.getD i 0) ((ref_data_vect.getD i default).shape.area)
        (test_margin_vect.getD j 0) ((test_data_vect.getD j default).shape.area) ∧
      (thresholdRelative ≤ weight_mat.entry i j / ref_margin_vect.getD i 0 →
        ¬ threshold_ref < weight_mat.entry i j / (ref_data_vect.getD i default).shape.area →
        L.entry i j = false) := by
  unfold compute_link_mat
  rw [if_pos ⟨h1, h2⟩, if_pos ⟨h3, h4⟩]
  refine ⟨_, rfl, ?_, ?_⟩
  · show compute_link_mat_entry weight_mat ref_margin_vect test_margin_vect
      ref_data_vect test_data_vect i j = spec_link_rule _ _ _ _ _
    unfold compute_link_mat_entry spec_link_rule
    rw [if_pos hw, if_neg (ne_of_gt hw)]
  · intro hgate habs
    show compute_link_mat_entry weight_mat ref_margin_vect test_margin_vect
      ref_data_vect test_data_vect i j = false
    unfold compute_link_mat_entry
    rw [if_pos hw, if_pos hgate]
    simpa using habs

theorem claim_C1_witness :
    (Mat.reflen (⟨1, 1, fun _ _ => 1⟩ : Mat ℚ) = List.length [(1 : ℚ)]) ∧
    (List.length [(1 : ℚ)] = List.length [(⟨⟨1⟩, ""⟩ : Annot)]) ∧
    (Mat.testlen (⟨1, 1, fun _ _ => 1⟩ : Mat ℚ) = List.length [(1 : ℚ)]) ∧
    (List.length [(1 : ℚ)] = List.length [(⟨⟨1⟩, ""⟩ : Annot)]) ∧
    (0 < Mat.entry (⟨1, 1, fun _ _ => 1⟩ : Mat ℚ) 0 0) ∧
    (∃ L, compute_link_mat ⟨1, 1, fun _ _ => 1⟩ [1] [1] [⟨⟨1⟩, ""⟩] [⟨⟨1⟩, ""⟩] =
        Except.ok L ∧
      L.entry 0 0 = spec_link_rule (Mat.entry (⟨1, 1, fun _ _ => 1⟩ : Mat ℚ) 0 0)
        (List.getD [(1 : ℚ)] 0 0) ((List.getD [(⟨⟨1⟩, ""⟩ : Annot)] 0 default).shape.area)
        (List.getD [(1 : ℚ)] 0 0) ((List.getD [(⟨⟨1⟩, ""⟩ : Annot)] 0 default).shape.area) ∧
      (thresholdRelative ≤ Mat.entry (⟨1, 1, fun _ _ => 1⟩ : Mat ℚ) 0 0 / List.getD [(1 : ℚ)] 0 0 →
        ¬ threshold_ref < Mat.entry (⟨1, 1, fun _ _ => 1⟩ : Mat ℚ) 0 0 /
          (List.getD [(⟨⟨1⟩, ""⟩ : Annot)] 0 default).shape.area →
        L.entry 0 0 = false)) :=
  ⟨rfl, rfl, rfl, rfl, by show (0 : ℚ) < 1; norm_num,
    claim_C1_link_rule ⟨1, 1, fun _ _ => 1⟩ [1] [1] [⟨⟨1⟩, ""⟩] [⟨⟨1⟩, ""⟩] 0 0
      rfl rfl rfl rfl (by show (0 : ℚ) < 1; norm_num)⟩

/-! ### Claims C2 and C3 -/

lemma foldl_const_acc {α β : Type} (l : List α) (init : β) :
    l.foldl (fun acc _ => acc) init = init := by
  induction l generalizing init with
  | nil => rfl
  | cons x xs ih => exact ih init

/-- The metric aggregation on a link matrix with no rows or no columns:
everything is 0 except `Cr`/`Ct`, the false alarms (all columns, when there
are no rows) and the missed components (all rows, when there are no
columns). -/
lemma metrics_degenerate (L : Mat Bool) (h : L.reflen = 0 ∨ L.testlen = 0) :
    (computeMetrics L).Tc = 0 ∧ (computeMetrics L).To = 0 ∧
    (computeMetrics L).Tu = 0 ∧ (computeMetrics L).Co = 0 ∧
    (computeMetrics L).Cu = 0 ∧
    (computeMetrics L).Cm = (if L.testlen = 0 then L.reflen else 0) ∧
    (computeMetrics L).Cf = (if L.reflen = 0 then L.testlen else 0) ∧
    (computeMetrics L).Cr = L.reflen ∧ (computeMetrics L).Ct = L.testlen := by
  rcases h with h | h
  · refine ⟨?_, ?_, ?_, ?_, ?_, ?_, ?_, rfl, rfl⟩
    · simp [computeMetrics, find_total_correct_segmentation, h]
    · simp [computeMetrics, find_total_over_segmentation, h]
    · simp [computeMetrics, find_total_under_segmentation, h, foldl_const_acc]
    · simp [computeMetrics, find_num_over_segmentation_components, h]
    · simp [computeMetrics, find_num_under_segmentation_components, h]
    · simp [computeMetrics, find_num_missed_components, h]
    · simp [computeMetrics, find_num_false_alarm_components, h]
  · refine ⟨?_, ?_, ?_, ?_, ?_, ?_, ?_, rfl, rfl⟩
    · simp [computeMetrics, find_total_correct_segmentation, h]
    · simp [computeMetrics, find_total_over_segmentation, h, foldl_const_acc]
    · simp [computeMetrics, find_total_under_segmentation, h]
    · simp [computeMetrics, find_num_over_segmentation_components, h]
    · simp [computeMetrics, find_num_under_segmentation_components, h]
    · simp [computeMetrics, find_num_missed_components, h]
    · simp [computeMetrics, find_num_false_alarm_components, h]

/-- Claim C2 (amended): with an empty reference list or an empty test
list, the metric aggregator yields `Tc = To = Tu = Co = Cu = 0` and
`Cr = N`, `Ct = M`, but `Cf` equals `M` (not 0) when `N = 0`, and `Cm`
equals `N` (not 0) when `M = 0`; no failure occurs. -/
theorem claim_C2_degenerate_metrics (L : Mat Bool)
    (h : L.reflen = 0 ∨ L.testlen = 0) :
    (computeMetrics L).Tc = 0 ∧ (computeMetrics L).To = 0 ∧
    (computeMetrics L).Tu = 0 ∧ (computeMetrics L).Co = 0 ∧
    (computeMetrics L).Cu = 0 ∧
    (computeMetrics L).Cm = (if L.testlen = 0 then L.reflen else 0) ∧
    (computeMetrics L).Cf = (if L.reflen = 0 then L.testlen else 0) ∧
    (computeMetrics L).Cr = L.reflen ∧ (computeMetrics L).Ct = L.testlen :=
  metrics_degenerate L h

/-- Claim C2, as stated, is false: on the 0×1 link matrix the aggregator
yields `Cf = 1`, not 0, although `N = 0`. -/
theorem claim_C2_counterexample :
    (computeMetrics ⟨0, 1, fun _ _ => false⟩).Cf ≠ 0 := by decide

theorem claim_C2_witness :
    (Mat.reflen (⟨0, 1, fun _ _ => false⟩ : Mat Bool) = 0 ∨
      Mat.testlen (⟨0, 1, fun _ _ => false⟩ : Mat Bool) = 0) ∧
    (computeMetrics ⟨0, 1, fun _ _ => false⟩).Cf =
      (if Mat.reflen (⟨0, 1, fun _ _ => false⟩ : Mat Bool) = 0
       then Mat.testlen (⟨0, 1, fun _ _ => false⟩ : Mat Bool) else 0) :=
  ⟨Or.inl rfl,
    (claim_C2_degenerate_metrics ⟨0, 1, fun _ _ => false⟩ (Or.inl rfl)).2.2.2.2.2.2.1⟩

/-- Claim C3: with an empty reference list and a non-empty test list, the
pipeline (margins, link classifier, metric aggregation) completes without
failure and yields `Cr = 0`, `Cf = Ct = M` and all other counts 0. -/
theorem claim_C3_empty_reference (weight_mat : Mat ℚ) (test_data_vect : List Annot)
    (h0 : weight_mat.reflen = 0) (hM : 0 < weight_mat.testlen)
    (hlen : test_data_vect.length = weight_mat.testlen) :
    ∃ L, compute_link_mat weight_mat (compute_ref_margin_vect weight_mat)
        (compute_test_margin_vect weight_mat) [] test_data_vect = Except.ok L ∧
      (computeMetrics L).Cr = 0 ∧
      (computeMetrics L).Ct = weight_mat.testlen ∧
      (computeMetrics L).Cf = weight_mat.testlen ∧
      (computeMetrics L).Tc = 0 ∧ (computeMetrics L).To = 0 ∧
      (computeMetrics L).Tu = 0 ∧ (computeMetrics L).Co = 0 ∧
      (computeMetrics L).Cu = 0 ∧ (computeMetrics L).Cm = 0 := by
  have hrm : (compute_ref_margin_vect weight_mat).length = weight_mat.reflen := by
    simp [compute_ref_margin_vect]
  have htm : (compute_test_margin_vect weight_mat).length = weight_mat.testlen := by
    simp [compute_test_margin_vect]
  unfold compute_link_mat
  rw [if_pos ⟨hrm.symm, by simp [hrm, h0]⟩, if_pos ⟨htm.symm, by rw [htm, hlen]⟩]
  refine ⟨_, rfl, ?_⟩
  set L : Mat Bool := ⟨List.length ([] : List Annot), test_data_vect.length,
    compute_link_mat_entry weight_mat (compute_ref_margin_vect weight_mat)
      (compute_test_margin_vect weight_mat) [] test_data_vect⟩ with hLdef
  have hLr : L.reflen = 0 := rfl
  have hLt : L.testlen = weight_mat.testlen := hlen
  obtain ⟨tc, tt, tu, co, cu, cm, cf, cr, ct⟩ := metrics_degenerate L (Or.inl hLr)
  refine ⟨?_, ?_, ?_, tc, tt, tu, co, cu, ?_⟩
  · rw [cr, hLr]
  · rw [ct, hLt]
  · rw [cf, if_pos hLr, hLt]
  · rw [cm]
    have : L.testlen ≠ 0 := by omega
    rw [if_neg this]

theorem claim_C3_witness :
    (Mat.reflen (⟨0, 1, fun _ _ => 0⟩ : Mat ℚ) = 0) ∧
    (0 < Mat.testlen (⟨0, 1, fun _ _ => 0⟩ : Mat ℚ)) ∧
    (List.length [(⟨⟨1⟩, ""⟩ : Annot)] = Mat.testlen (⟨0, 1, fun _ _ => 0⟩ : Mat ℚ)) ∧
    (∃ L, compute_link_mat ⟨0, 1, fun _ _ => 0⟩
        (compute_ref_margin_vect ⟨0, 1, fun _ _ => 0⟩)
        (compute_test_margin_vect ⟨0, 1, fun _ _ => 0⟩) [] [⟨⟨1⟩, ""⟩] = Except.ok L ∧
      (computeMetrics L).Cr = 0 ∧
      (computeMetrics L).Ct = Mat.testlen (⟨0, 1, fun _ _ => 0⟩ : Mat ℚ) ∧
      (computeMetrics L).Cf = Mat.testlen (⟨0, 1, fun _ _ => 0⟩ : Mat ℚ) ∧
      (computeMetrics L).Tc = 0 ∧ (computeMetrics L).To = 0 ∧
      (computeMetrics L).Tu = 0 ∧ (computeMetrics L).Co = 0 ∧
      (computeMetrics L).Cu = 0 ∧ (computeMetrics L).Cm = 0) :=
  ⟨rfl, by decide, rfl,
    claim_C3_empty_reference ⟨0, 1, fun _ _ => 0⟩ [⟨⟨1⟩, ""⟩] rfl (by decide) rfl⟩

/-! ### Fold lemmas for the row scans -/

lemma scan_foldl_fst (p : Nat → Bool) (l : List Nat) (c j0 : Nat) :
    (List.foldl (fun acc j => if p j then (acc.1 + 1, j) else acc) (c, j0) l).1
      = c + List.countP p l := by
  induction l generalizing c j0 with
  | nil => simp
  | cons x xs ih =>
      rw [List.foldl_cons, List.countP_cons]
      by_cases h : p x = true
      · rw [if_pos h, ih]
        simp [h]
        omega
      · rw [if_neg h, ih]
        simp [h]

lemma scan_foldl_of_none (p : Nat → Bool) (l : List Nat) (c j0 : Nat)
    (h : List.countP p l = 0) :
    List.foldl (fun acc j => if p j then (acc.1 + 1, j) else acc) (c, j0) l = (c, j0) := by
  induction l generalizing c j0 with
  | nil => rfl
  | cons x xs ih =>
      rw [List.countP_cons] at h
      by_cases hx : p x = true
      · simp [hx] at h
      · rw [List.foldl_cons, if_neg hx]
        exact ih c j0 (by omega)

lemma scan_foldl_snd (p : Nat → Bool) (l : List Nat) (c j0 : Nat)
    (h : 0 < List.countP p l) :
    (List.foldl (fun acc j => if p j then (acc.1 + 1, j) else acc) (c, j0) l).2 ∈ l ∧
      p (List.foldl (fun acc j => if p j then (acc.1 + 1, j) else acc) (c, j0) l).2
        = true := by
  induction l generalizing c j0 with
  | nil => simp at h
  | cons x xs ih =>
      by_cases hx : p x = true
      · rw [List.foldl_cons, if_pos hx]
        by_cases hxs : 0 < List.countP p xs
        · obtain ⟨hm, hp⟩ := ih (c + 1) x hxs
          exact ⟨List.mem_cons_of_mem _ hm, hp⟩
        · have h0 : List.countP p xs = 0 := by omega
          rw [scan_foldl_of_none p xs _ _ h0]
          exact ⟨List.mem_cons_self x xs, hx⟩
      · have hxs : 0 < List.countP p xs := by
          rw [List.countP_cons] at h
          simpa [hx] using h
        rw [List.foldl_cons, if_neg hx]
        obtain ⟨hm, hp⟩ := ih c j0 hxs
        exact ⟨List.mem_cons_of_mem _ hm, hp⟩

lemma countP_one_unique (p : Nat → Bool) (l : List Nat) (h : List.countP p l = 1)
    {a b : Nat} (ha : a ∈ l) (hpa : p a = true) (hb : b ∈ l) (hpb : p b = true) :
    a = b := by
  rw [List.countP_eq_length_filter] at h
  obtain ⟨c, hc⟩ := List.length_eq_one.mp h
  have h1 : a ∈ l.filter p := List.mem_filter.mpr ⟨ha, hpa⟩
  have h2 : b ∈ l.filter p := List.mem_filter.mpr ⟨hb, hpb⟩
  rw [hc, List.mem_singleton] at h1 h2
  rw [h1, h2]

lemma sum_indicator (p : Nat → Bool) (l : List Nat) :
    (l.map fun i => if p i then 1 else 0).sum = List.countP p l := by
  induction l with
  | nil => simp
  | cons x xs ih =>
      rw [List.map_cons, List.sum_cons, List.countP_cons, ih]
      by_cases h : p x = true
      · simp [h]
        omega
      · simp [h]

/-- The row scan of `find_total_correct_segmentation` counts exactly the
reference rows of degree 1 whose unique linked column also has degree 1. -/
lemma tc_eq_specTc (link_mat : Mat Bool) :
    find_total_correct_segmentation link_mat = specTc link_mat := by
  unfold find_total_correct_segmentation specTc rowDeg colDeg
  rw [← sum_indicator]
  apply congrArg List.sum
  apply List.map_congr_left
  intro i hi
  dsimp only
  have hfst := scan_foldl_fst (fun j => link_mat.entry i j)
    (List.range link_mat.testlen) 0 0
  rw [Nat.zero_add] at hfst
  rw [hfst]
  by_cases hdeg : List.countP (fun j => link_mat.entry i j)
      (List.range link_mat.testlen) = 1
  · rw [if_pos hdeg]
    have hpos : 0 < List.countP (fun j => link_mat.entry i j)
        (List.range link_mat.testlen) := by omega
    obtain ⟨hmem, hp⟩ := scan_foldl_snd (fun j => link_mat.entry i j)
      (List.range link_mat.testlen) 0 0 hpos
    by_cases hcol : List.countP
        (fun ii => link_mat.entry ii
          ((List.foldl (fun acc j => if link_mat.entry i j then (acc.1 + 1, j) else acc)
            (0, 0) (List.range link_mat.testlen)).2))
        (List.range link_mat.reflen) = 1
    · rw [if_pos hcol]
      have hany : ((List.range link_mat.testlen).any fun j =>
          link_mat.entry i j &&
            decide (List.countP (fun ii => link_mat.entry ii j)
              (List.range link_mat.reflen) = 1)) = true := by
        refine List.any_eq_true.mpr ⟨_, hmem, ?_⟩
        rw [hp, hcol]
        simp
      rw [hdeg, hany]
      simp
    · rw [if_neg hcol]
      have hany : ((List.range link_mat.testlen).any fun j =>
          link_mat.entry i j &&
            decide (List.countP (fun ii => link_mat.entry ii j)
              (List.range link_mat.reflen) = 1)) = false := by
        rw [Bool.eq_false_iff]
        intro hcontra
        obtain ⟨j, hjmem, hj⟩ := List.any_eq_true.mp hcontra
        rw [Bool.and_eq_true, decide_eq_true_iff] at hj
        have hjeq : j = (List.foldl
            (fun acc j => if link_mat.entry i j then (acc.1 + 1, j) else acc)
            (0, 0) (List.range link_mat.testlen)).2 :=
          countP_one_unique (fun j => link_mat.entry i j) _ hdeg hjmem hj.1 hmem hp
        rw [hjeq] at hj
        exact hcol hj.2
      rw [hdeg, hany]
      simp
  · rw [if_neg hdeg]
    have : decide (List.countP (fun j => link_mat.entry i j)
        (List.range link_mat.testlen) = 1) = false := by
      simpa using hdeg
    rw [this]
    simp

/-- Claim C4: `Tc` equals the number of reference rows whose degree is
exactly 1 and whose unique linked column also has degree exactly 1; a
degree-1 row whose matched column has a larger degree does not count. -/
theorem claim_C4_tc_reciprocal (link_mat : Mat Bool) :
    find_total_correct_segmentation link_mat = specTc link_mat :=
  tc_eq_specTc link_mat

lemma pair_foldl_eq (f : Nat → Nat) (l : List Nat) (a b : Nat) :
    List.foldl (fun acc i => if f i > 1 then (acc.1 + f i, acc.2 + 1) else acc) (a, b) l
      = (a + (l.map fun i => if f i > 1 then f i else 0).sum,
         b + List.countP (fun i => decide (f i > 1)) l) := by
  induction l generalizing a b with
  | nil => simp
  | cons x xs ih =>
      rw [List.foldl_cons, List.map_cons, List.sum_cons, List.countP_cons]
      by_cases h : f x > 1
      · rw [if_pos h, ih]
        simp [h]
        constructor <;> omega
      · rw [if_neg h, ih]
        simp [h]

lemma count_gt_one_le_sum (f : Nat → Nat) (l : List Nat) :
    List.countP (fun i => decide (f i > 1)) l ≤
      (l.map fun i => if f i > 1 then f i else 0).sum := by
  induction l with
  | nil => simp
  | cons x xs ih =>
      rw [List.countP_cons, List.map_cons, List.sum_cons]
      simp only [decide_eq_true_eq]
      by_cases h : f x > 1
      · rw [if_pos h, if_pos h]
        omega
      · rw [if_neg h, if_neg h]
        omega

lemma sum_sub_count (f : Nat → Nat) (l : List Nat) :
    (l.map fun i => if f i > 1 then f i else 0).sum -
        List.countP (fun i => decide (f i > 1)) l
      = (l.map fun i => if f i > 1 then f i - 1 else 0).sum := by
  induction l with
  | nil => simp
  | cons x xs ih =>
      rw [List.map_cons, List.sum_cons, List.countP_cons, List.map_cons, List.sum_cons]
      simp only [decide_eq_true_eq]
      have hle := count_gt_one_le_sum f xs
      by_cases h : f x > 1
      · rw [if_pos h, if_pos h, if_pos h]
        omega
      · rw [if_neg h, if_neg h, if_neg h]
        omega

/-- Claim C5: `To` is the sum of `degree − 1` over reference rows of
degree above 1, and `Tu` is the symmetric sum over test columns. -/
theorem claim_C5_total_over_under (link_mat : Mat Bool) :
    find_total_over_segmentation link_mat = specTo link_mat ∧
      find_total_under_segmentation link_mat = specTu link_mat := by
  constructor
  · unfold find_total_over_segmentation specTo rowDeg
    dsimp only
    rw [pair_foldl_eq, Nat.zero_add, Nat.zero_add, sum_sub_count]
  · unfold find_total_under_segmentation specTu colDeg
    dsimp only
    rw [pair_foldl_eq, Nat.zero_add, Nat.zero_add, sum_sub_count]

/-! ### Counting helpers for the accounting bounds -/

lemma countP_ext (p q : Nat → Bool) (l : List Nat) (h : ∀ x ∈ l, p x = q x) :
    List.countP p l = List.countP q l := by
  induction l with
  | nil => rfl
  | cons x xs ih =>
      rw [List.countP_cons, List.countP_cons, h x (List.mem_cons_self x xs),
        ih fun y hy => h y (List.mem_cons_of_mem x hy)]

lemma bang_any_eq_decide_countP_zero (p : Nat → Bool) (l : List Nat) :
    (!l.any p) = decide (List.countP p l = 0) := by
  by_cases h : l.any p = true
  · obtain ⟨x, hx, hpx⟩ := List.any_eq_true.mp h
    have hne : List.countP p l ≠ 0 := by
      intro h0
      exact absurd hpx (List.countP_eq_zero.mp h0 x hx)
    rw [h]
    simp [hne]
  · have hfalse : l.any p = false := Bool.eq_false_iff.mpr h
    have h0 : List.countP p l = 0 := by
      rw [List.countP_eq_zero]
      intro a ha hpa
      exact h (List.any_eq_true.mpr ⟨a, ha, hpa⟩)
    rw [hfalse]
    simp [h0]

lemma missed_eq_countP_deg_zero (link_mat : Mat Bool) :
    find_num_missed_components link_mat =
      List.countP (fun i => decide (rowDeg link_mat i = 0))
        (List.range link_mat.reflen) := by
  unfold find_num_missed_components rowDeg
  exact countP_ext _ _ _ fun i _ => bang_any_eq_decide_countP_zero _ _

lemma false_alarm_eq_countP_deg_zero (link_mat : Mat Bool) :
    find_num_false_alarm_components link_mat =
      List.countP (fun j => decide (colDeg link_mat j = 0))
        (List.range link_mat.testlen) := by
  unfold find_num_false_alarm_components colDeg
  exact countP_ext _ _ _ fun j _ => bang_any_eq_decide_countP_zero _ _

lemma countP_deg_partition (g : Nat → Nat) (l : List Nat) :
    List.countP (fun x => decide (g x = 1)) l +
        List.countP (fun x => decide (g x > 1)) l +
        List.countP (fun x => decide (g x = 0)) l ≤ l.length := by
  induction l with
  | nil => simp
  | cons x xs ih =>
      rw [List.countP_cons, List.countP_cons, List.countP_cons, List.length_cons]
      simp only [decide_eq_true_eq]
      split_ifs <;> omega

lemma countP_range_eq_card_filter (p : Nat → Bool) (n : Nat) :
    List.countP p (List.range n) =
      ((Finset.range n).filter fun i => p i = true).card := by
  induction n with
  | zero => simp
  | succ k ih =>
      rw [List.range_succ, List.countP_append, Finset.range_succ, Finset.filter_insert]
      by_cases h : p k = true
      · rw [if_pos h, Finset.card_insert_of_not_mem (by simp), ih]
        simp [h]
      · rw [if_neg h, ih]
        simp [h]

/-- The unique linked column of a degree-1 row, realised as the head of the
row's filtered column list. -/
lemma row_unique_match (link_mat : Mat Bool) (i : Nat)
    (hdeg : rowDeg link_mat i = 1) {j : Nat}
    (hj : j ∈ List.range link_mat.testlen) (hij : link_mat.entry i j = true) :
    ((List.range link_mat.testlen).filter fun j' => link_mat.entry i j').headD 0 = j := by
  unfold rowDeg at hdeg
  rw [List.countP_eq_length_filter] at hdeg
  obtain ⟨c, hc⟩ := List.length_eq_one.mp hdeg
  have hjf : j ∈ (List.range link_mat.testlen).filter fun j' => link_mat.entry i j' :=
    List.mem_filter.mpr ⟨hj, hij⟩
  rw [hc] at hjf ⊢
  rw [List.mem_singleton] at hjf
  rw [List.headD_cons, hjf]

lemma specTc_le_cols_deg_one (link_mat : Mat Bool) :
    specTc link_mat ≤
      List.countP (fun j => decide (colDeg link_mat j = 1))
        (List.range link_mat.testlen) := by
  unfold specTc
  rw [countP_range_eq_card_filter, countP_range_eq_card_filter]
  apply Finset.card_le_card_of_injOn
    (fun i => ((List.range link_mat.testlen).filter fun j' => link_mat.entry i j').headD 0)
  · intro i hi
    rw [Finset.mem_filter] at hi
    obtain ⟨hiN, hpred⟩ := hi
    rw [Bool.and_eq_true, decide_eq_true_eq] at hpred
    obtain ⟨hdeg, hany⟩ := hpred
    obtain ⟨j, hjmem, hj⟩ := List.any_eq_true.mp hany
    rw [Bool.and_eq_true, decide_eq_true_eq] at hj
    obtain ⟨hij, hcol⟩ := hj
    rw [row_unique_match link_mat i hdeg hjmem hij]
    rw [Finset.mem_filter]
    refine ⟨Finset.mem_range.mpr (List.mem_range.mp hjmem), ?_⟩
    rw [decide_eq_true_eq]
    exact hcol
  · intro i1 h1 i2 h2 heq
    simp only [Finset.coe_filter, Set.mem_setOf_eq] at h1 h2
    obtain ⟨hi1N, hpred1⟩ := h1
    obtain ⟨hi2N, hpred2⟩ := h2
    rw [Bool.and_eq_true, decide_eq_true_eq] at hpred1 hpred2
    obtain ⟨hdeg1, hany1⟩ := hpred1
    obtain ⟨hdeg2, hany2⟩ := hpred2
    obtain ⟨j1, hj1mem, hj1⟩ := List.any_eq_true.mp hany1
    obtain ⟨j2, hj2mem, hj2⟩ := List.any_eq_true.mp hany2
    rw [Bool.and_eq_true, decide_eq_true_eq] at hj1 hj2
    obtain ⟨hij1, hcol1⟩ := hj1
    obtain ⟨hij2, hcol2⟩ := hj2
    dsimp only at heq
    rw [row_unique_match link_mat i1 hdeg1 hj1mem hij1,
      row_unique_match link_mat i2 hdeg2 hj2mem hij2] at heq
    subst heq
    unfold colDeg at hcol1
    exact countP_one_unique _ _ hcol1
      (List.mem_range.mpr (Finset.mem_range.mp hi1N)) hij1
      (List.mem_range.mpr (Finset.mem_range.mp hi2N)) hij2

/-- Claim C10: row and column accounting bounds —
`Tc + Co + Cm ≤ N` and `Tc + Cu + Cf ≤ M`. -/
theorem claim_C10_accounting_bounds (link_mat : Mat Bool) :
    find_total_correct_segmentation link_mat +
        find_num_over_segmentation_components link_mat +
        find_num_missed_components link_mat ≤ link_mat.reflen ∧
      find_total_correct_segmentation link_mat +
        find_num_under_segmentation_components link_mat +
        find_num_false_alarm_components link_mat ≤ link_mat.testlen := by
  have htc := tc_eq_specTc link_mat
  constructor
  · rw [htc, missed_eq_countP_deg_zero]
    have h1 : specTc link_mat ≤
        List.countP (fun i => decide (rowDeg link_mat i = 1))
          (List.range link_mat.reflen) := by
      unfold specTc
      apply List.countP_mono_left
      intro i hi h
      rw [Bool.and_eq_true] at h
      exact h.1
    have h2 : find_num_over_segmentation_components link_mat =
        List.countP (fun i => decide (rowDeg link_mat i > 1))
          (List.range link_mat.reflen) := by
      unfold find_num_over_segmentation_components rowDeg
      rfl
    rw [h2]
    have h3 := countP_deg_partition (rowDeg link_mat) (List.range link_mat.reflen)
    rw [List.length_range] at h3
    omega
  · rw [htc]
    have h1 := specTc_le_cols_deg_one link_mat
    have h2 : find_num_under_segmentation_components link_mat =
        List.countP (fun j => decide (colDeg link_mat j > 1))
          (List.range link_mat.testlen) := by
      unfold find_num_under_segmentation_components colDeg
      rfl
    rw [h2, false_alarm_eq_countP_deg_zero]
    have h3 := countP_deg_partition (colDeg link_mat) (List.range link_mat.testlen)
    rw [List.length_range] at h3
    omega
